import Mathlib

/-!
Shallow embedding of the multi-symbol laddered futures trading engine in
`src/app.py` (class `MultiSymbolAutoTrader`).  Exchange-side effects are
modelled as explicit parameters (fetched positions, order outcomes, the
current wall-clock time), machine floats as exact rationals, and Python
exceptions as `Option` results / error fields.  Definitions keep the
source's names.
-/

inductive Exch | okx | binance | bybit
deriving DecidableEq

inductive Side | buy | sell
deriving DecidableEq

inductive PosSide | long | short
deriving DecidableEq

inductive TpType | profit | stop
deriving DecidableEq

inductive PyErr | nameError | apiError
deriving DecidableEq

structure LevelConfig where
  distance : ℚ
  ratio : ℚ
deriving DecidableEq

structure Market where
  contractSize : ℚ
  amountPrecisionInt : Option ℕ
  minAmount : Option ℚ
deriving DecidableEq

structure Position where
  side : PosSide
  amount : ℚ
  entry_price : ℚ
deriving DecidableEq

structure SymbolState where
  order_level : ℕ
  last_close_time : Option ℚ
  is_first_entry : Bool
  is_active : Bool
  just_entered : Bool
  tp_order_id : Option ℕ
  current_tp_price : Option ℚ
  current_tp_type : Option TpType
  cumulative_amounts : List (ℕ × ℚ)
deriving DecidableEq

structure LimitReq where
  side : Side
  price : ℚ
  amount : ℚ
deriving DecidableEq

structure MarketOrderOutcome where
  result : Option ℤ
  submitted : Bool
  raised : Option PyErr
  followups : List LimitReq
deriving DecidableEq

structure CancelResult where
  attempted : List ℕ
  failed : List ℕ
  fatal : Option PyErr
deriving DecidableEq

/-- Python `int(...)`: truncation toward zero. -/
def py_int (x : ℚ) : ℤ := if 0 ≤ x then ⌊x⌋ else ⌈x⌉

/-- Python `round(x)`: banker's rounding (ties to even), idealized over ℚ. -/
def py_round_int (x : ℚ) : ℤ :=
  if x - ⌊x⌋ < 1/2 then ⌊x⌋
  else if 1/2 < x - ⌊x⌋ then ⌊x⌋ + 1
  else if ⌊x⌋ % 2 = 0 then ⌊x⌋
  else ⌊x⌋ + 1

/-- Python `round(x, p)` for a nonnegative digit count `p`. -/
def py_round (x : ℚ) (p : ℕ) : ℚ := (py_round_int (x * 10 ^ p) : ℚ) / 10 ^ p

/-- The fixed 10-rung base table (`base_levels` inside `calculate_levels`). -/
def base_levels : List (ℕ × LevelConfig) :=
  [(1, ⟨0, 5⟩), (2, ⟨3/2, 5⟩), (3, ⟨3, 15/2⟩), (4, ⟨5, 10⟩), (5, ⟨8, 25/2⟩),
   (6, ⟨12, 15⟩), (7, ⟨17, 20⟩), (8, ⟨23, 25⟩), (9, ⟨30, 30⟩), (10, ⟨38, 40⟩)]

/-- `base_total_ratio = sum(level['ratio'] for level in base_levels.values())`. -/
def base_total_ratio : ℚ := (base_levels.map (fun p => p.2.ratio)).sum

/-- `calculate_levels`: every rung's ratio is multiplied by
`capital_usage_ratio / base_total_ratio`; distances are copied unchanged. -/
def calculate_levels (capital_usage_ratio : ℚ) : List (ℕ × LevelConfig) :=
  base_levels.map (fun p =>
    (p.1, ⟨p.2.distance, p.2.ratio * (capital_usage_ratio / base_total_ratio)⟩))

/-- Lines 328–333 of `calculate_order_amount`: `position_value =
total_balance * final_ratio` where `final_ratio = (ratio/100) /
active_symbols_count * (capital_usage_ratio/170)` — note the second
application of the capital-usage multiplier on top of the already rescaled
table ratio. -/
def order_position_value (cfg : LevelConfig) (total_balance : ℚ)
    (active_symbols_count : ℕ) (capital_usage_ratio : ℚ) : ℚ :=
  total_balance *
    (cfg.ratio / 100 / (active_symbols_count : ℚ) * (capital_usage_ratio / 170))

/-- Line 337 of `calculate_order_amount`: contracts before precision
rounding. -/
def order_raw_contracts (cfg : LevelConfig) (price total_balance : ℚ)
    (active_symbols_count : ℕ) (capital_usage_ratio : ℚ) (contract_size : ℚ) : ℚ :=
  order_position_value cfg total_balance active_symbols_count capital_usage_ratio /
    (price * contract_size)

/-- `calculate_order_amount` (main path).  `none` models the `KeyError`
raised when the level is missing from the table (whose `except` handler in
turn hits an unbound `position_value` and re-raises). -/
def calculate_order_amount (levels : List (ℕ × LevelConfig)) (level : ℕ)
    (price total_balance : ℚ) (m : Market) (active_symbols_count : ℕ)
    (capital_usage_ratio : ℚ) : Option ℚ :=
  match levels.lookup level with
  | none => none
  | some cfg =>
    let contracts := order_raw_contracts cfg price total_balance
      active_symbols_count capital_usage_ratio m.contractSize
    let rounded := match m.amountPrecisionInt with
      | some p => py_round contracts p
      | none => py_round contracts 8
    let min_amount := match m.minAmount with
      | some market_min => max (1/1000 : ℚ) market_min
      | none => (1/1000 : ℚ)
    some (if rounded < min_amount then min_amount else rounded)

/-- Modelled from the spec: §4.2 steps 2–3 — `positionValue = totalBalance *
(levelTable[level].ratio / 100) / activeSymbolCount`, the (already rescaled)
table ratio being the only capital scaling applied. -/
def spec_position_value (cfg : LevelConfig) (total_balance : ℚ)
    (active_symbols_count : ℕ) : ℚ :=
  total_balance * (cfg.ratio / 100 / (active_symbols_count : ℚ))

/-- Loop body of `calculate_cumulative_amounts`: levels 1..10, each rung's
order size computed at `entry_price` itself; absent levels are skipped. -/
def calc_cum_aux (levels : List (ℕ × LevelConfig)) (entry_price total_balance : ℚ)
    (m : Market) (count : ℕ) (r : ℚ) : List ℕ → ℚ → List (ℕ × ℚ)
  | [], _ => []
  | lv :: rest, acc =>
    match calculate_order_amount levels lv entry_price total_balance m count r with
    | some amount =>
      (lv, acc + amount) :: calc_cum_aux levels entry_price total_balance m count r rest (acc + amount)
    | none => calc_cum_aux levels entry_price total_balance m count r rest acc

/-- `calculate_cumulative_amounts`: running totals for levels 1..10. -/
def calculate_cumulative_amounts (levels : List (ℕ × LevelConfig))
    (entry_price total_balance : ℚ) (m : Market) (count : ℕ) (r : ℚ) : List (ℕ × ℚ) :=
  calc_cum_aux levels entry_price total_balance m count r (List.range' 1 10) 0

/-- Modelled from the spec: §4.4 — the same running-total table, but with
each rung's size computed at the rung's ladder price
`entryPrice * (1 - distance_pct)`. -/
def spec_cum_aux (levels : List (ℕ × LevelConfig)) (entry_price total_balance : ℚ)
    (m : Market) (count : ℕ) (r : ℚ) : List ℕ → ℚ → List (ℕ × ℚ)
  | [], _ => []
  | lv :: rest, acc =>
    match levels.lookup lv with
    | some cfg =>
      let amount := (calculate_order_amount levels lv
        (entry_price * (1 - cfg.distance / 100)) total_balance m count r).getD 0
      (lv, acc + amount) :: spec_cum_aux levels entry_price total_balance m count r rest (acc + amount)
    | none => spec_cum_aux levels entry_price total_balance m count r rest acc

/-- Modelled from the spec: the cumulative table the claim describes, built
at successive ladder prices. -/
def spec_cumulative_amounts (levels : List (ℕ × LevelConfig))
    (entry_price total_balance : ℚ) (m : Market) (count : ℕ) (r : ℚ) : List (ℕ × ℚ) :=
  spec_cum_aux levels entry_price total_balance m count r (List.range' 1 10) 0

/-- Comparison against the running `min_diff` of
`get_current_level_from_position`; `none` models the `float('inf')`
sentinel. -/
def lt_min_diff (d : ℚ) (min_diff : Option ℚ) : Bool :=
  match min_diff with
  | none => true
  | some v => decide (d < v)

/-- Loop of `get_current_level_from_position` over the cumulative table in
insertion (ascending-level) order. -/
def gclp_aux (q : ℚ) : List (ℕ × ℚ) → Option ℚ → ℕ → ℕ
  | [], _, closest => closest
  | p :: rest, min_diff, closest =>
    if lt_min_diff |q - p.2| min_diff then gclp_aux q rest (some |q - p.2|) p.1
    else gclp_aux q rest min_diff closest

/-- `get_current_level_from_position`: level 1 on an empty table, otherwise
the first level achieving the minimal absolute difference. -/
def get_current_level_from_position (cumulative_amounts : List (ℕ × ℚ))
    (position_amount : ℚ) : ℕ :=
  if cumulative_amounts.isEmpty then 1
  else gclp_aux position_amount cumulative_amounts none 1

/-- `can_enter_position`, with the wall clock passed explicitly. -/
def can_enter_position (is_first_entry : Bool) (last_close_time : Option ℚ)
    (now : ℚ) : Bool :=
  if is_first_entry then true
  else
    match last_close_time with
    | some t => decide (now - t ≥ 60)
    | none => true

def opposite_side : Side → Side
  | .buy => .sell
  | .sell => .buy

/-- The five follow-up limit orders of `generate_followup_orders`:
`price_step = base_price * (1 + 0.01*i)`, `amount_step = initial_amount * 0.2`. -/
def followup_orders_list (side : Side) (initial_amount base_price : ℚ) : List LimitReq :=
  (List.range' 1 5).map
    (fun i => ⟨opposite_side side, base_price * (1 + 1/100 * (i : ℚ)), initial_amount * (2/10)⟩)

/-- `generate_followup_orders`.  On Binance the refetched position amount
gates the orders; on Bybit/OKX the state key `position_amount` is read with
default 0 (the key is never written anywhere in the program). -/
def generate_followup_orders (exch : Exch) (side : Side) (initial_amount : ℚ)
    (fetched_position_amt : Option ℚ) (base_price : ℚ)
    (state_position_amount : ℚ) : List LimitReq :=
  match exch with
  | .binance =>
    match fetched_position_amt with
    | some amt => if amt ≠ 0 then followup_orders_list side initial_amount base_price else []
    | none => []
  | _ =>
    if state_position_amount > 0 then followup_orders_list side initial_amount base_price else []

/-- The Binance-branch computation of `adjusted_amount` in
`place_market_order` (min notional 5.0, 10% buffer, rounding to precision,
integer lot-size multiples). -/
def binance_adjusted_amount (amount current_price : ℚ) (precision : ℕ)
    (lot_size : ℚ) : ℤ :=
  let required_amount := max amount (5 / current_price * (11/10))
  let rounded_amount := py_round required_amount precision
  let multiplier := py_round_int (rounded_amount / lot_size)
  let adjusted := py_int ((multiplier : ℚ) * lot_size)
  if adjusted < py_int lot_size then py_int lot_size else adjusted

/-- The binding state of the local variable `adjusted_amount` when control
reaches the `create_market_order` call: it is assigned only on the Binance
branch; `none` models the name being unbound. -/
def adjusted_amount_binding (exch : Exch) (amount current_price : ℚ)
    (precision : ℕ) (lot_size : ℚ) : Option ℤ :=
  match exch with
  | .binance => some (binance_adjusted_amount amount current_price precision lot_size)
  | _ => none

/-- `place_market_order`: evaluating the unbound `adjusted_amount` raises a
`NameError` caught by the catch-all handler (result `none`, nothing
submitted); on success the follow-up orders are triggered. -/
def place_market_order (exch : Exch) (side : Side) (amount current_price : ℚ)
    (precision : ℕ) (lot_size : ℚ) (create_succeeds : Bool)
    (fetched_position_amt : Option ℚ) (base_price : ℚ)
    (state_position_amount : ℚ) : MarketOrderOutcome :=
  match adjusted_amount_binding exch amount current_price precision lot_size with
  | none => { result := none, submitted := false, raised := some .nameError, followups := [] }
  | some adjusted =>
    if create_succeeds then
      { result := some adjusted, submitted := true, raised := none,
        followups := generate_followup_orders exch side (adjusted : ℚ)
          fetched_position_amt base_price state_position_amount }
    else
      { result := none, submitted := true, raised := some .apiError, followups := [] }

/-- `place_initial_long_order`: level-1 sizing followed by a market buy;
returns whether an order came back. -/
def place_initial_long_order (exch : Exch) (levels : List (ℕ × LevelConfig))
    (current_price total_balance : ℚ) (m : Market) (count : ℕ) (r : ℚ)
    (precision : ℕ) (lot_size : ℚ) (create_succeeds : Bool)
    (fetched_position_amt : Option ℚ) (base_price : ℚ)
    (state_position_amount : ℚ) : Option Bool :=
  match calculate_order_amount levels 1 current_price total_balance m count r with
  | none => none
  | some long_amount =>
    some ((place_market_order exch .buy long_amount current_price precision lot_size
      create_succeeds fetched_position_amt base_price state_position_amount).result.isSome)

/-- Lines 560–562 of `update_tp_order`: the target exit price and intent. -/
def update_tp_order_target (entry_price take_profit_percent : ℚ) : ℚ × TpType :=
  (entry_price * (1 + take_profit_percent / 100), .profit)

/-- `update_tp_order`'s selected exit for the current position (`none` when
there is no open long). -/
def update_tp_order (position : Option Position) (take_profit_percent : ℚ) :
    Option (ℚ × TpType) :=
  match position with
  | none => none
  | some p =>
    if p.side = .long then some (update_tp_order_target p.entry_price take_profit_percent)
    else none

structure Candle where
  high : ℚ
  low : ℚ
deriving DecidableEq

/-- Modelled from the spec: the volatility-band stop — midpoint of the
highest high and lowest low over the last 80 one-hour candles, available
once the configured activation level is reached.  The source has no
corresponding computation (`fetch_ohlcv` and the validated
`donchian_activation_level` setting are never used by the engine). -/
def spec_volatility_stop (candles : List Candle) (current_level activation_level : ℕ) :
    Option ℚ :=
  match candles with
  | [] => none
  | c :: cs =>
    if activation_level ≤ current_level ∧ cs.length + 1 = 80 then
      some (((cs.map Candle.high).foldl max c.high +
             (cs.map Candle.low).foldl min c.low) / 2)
    else none

/-- Modelled from the spec: the exit-price selection rule — the volatility
stop when available and strictly lower than the profit target, otherwise the
profit target. -/
def spec_exit_select (volatility_stop : Option ℚ) (profit_target : ℚ) : ℚ × TpType :=
  match volatility_stop with
  | some v => if v < profit_target then (v, .stop) else (profit_target, .profit)
  | none => (profit_target, .profit)

/-- `reset_symbol_state_after_close`: the state fields written after a
detected closure. -/
def reset_symbol_state_after_close (now : ℚ) (s : SymbolState) : SymbolState :=
  { s with last_close_time := some now, is_first_entry := false, order_level := 0,
           just_entered := false, tp_order_id := none, current_tp_price := none,
           current_tp_type := none, cumulative_amounts := [] }

/-- `cancel_all_orders`: every per-order cancellation failure is caught in
the inner handler and the whole body in the outer handler, both of which
only log — no path raises, so `fatal` is always `none`. -/
def cancel_all_orders (open_orders : List ℕ) (cancel_fails : ℕ → Bool) : CancelResult :=
  { attempted := open_orders, failed := open_orders.filter cancel_fails, fatal := none }

/-- `close_position_market`: market-sells an open long and updates only
`last_close_time`, `is_first_entry` and `cumulative_amounts`; the
protective-order fields are left untouched. -/
def close_position_market (now : ℚ) (position : Option Position) (s : SymbolState)
    (order_succeeds : Bool) : Option Position × SymbolState :=
  match position with
  | some p =>
    if p.side = .long then
      if order_succeeds then
        (none, { s with last_close_time := some now, is_first_entry := false,
                        cumulative_amounts := [] })
      else (some p, s)
    else (some p, s)
  | none => (none, s)

/-- The spec invariant: the recorded protective-order state is cleared. -/
def protective_state_cleared (s : SymbolState) : Prop :=
  s.tp_order_id = none ∧ s.current_tp_price = none ∧ s.current_tp_type = none

instance (s : SymbolState) : Decidable (protective_state_cleared s) := by
  unfold protective_state_cleared; infer_instance

/-- Helper: the leftmost pair minimizing `|q - value|` (ties keep the
earlier pair). -/
def first_argmin (q : ℚ) : List (ℕ × ℚ) → Option (ℕ × ℚ)
  | [] => none
  | p :: rest =>
    match first_argmin q rest with
    | none => some p
    | some b => if |q - b.2| < |q - p.2| then some b else some p

/-- Helper: running totals `acc + f n₁, acc + f n₁ + f n₂, …` over a list of
levels, the shape the cumulative-amount loop produces when every level is
present in the table. -/
def running_sums (f : ℕ → ℚ) : List ℕ → ℚ → List (ℕ × ℚ)
  | [], _ => []
  | n :: rest, acc => (n, acc + f n) :: running_sums f rest (acc + f n)

/-- A concrete linear market: contract size 1, integer amount precision 8,
no exchange-specific minimum. -/
def mkt0 : Market := ⟨1, some 8, none⟩

/-- C7: the base ratios are {5,5,7.5,10,12.5,15,20,25,30,40} (sum 170) and
the base distances {0,1.5,3,5,8,12,17,23,30,38}; `calculate_levels r`
multiplies every rung's ratio by `r / 170`, leaves every distance unchanged,
and the scaled ratios sum to exactly `r`. -/
theorem C7_level_table :
    base_total_ratio = 170 ∧
    base_levels.map (fun p => p.2.ratio) = [5, 5, 15/2, 10, 25/2, 15, 20, 25, 30, 40] ∧
    base_levels.map (fun p => p.2.distance) = [0, 3/2, 3, 5, 8, 12, 17, 23, 30, 38] ∧
    ∀ r : ℚ,
      ((calculate_levels r).map (fun p => p.2.ratio)).sum = r ∧
      (calculate_levels r).map (fun p => (p.1, p.2.distance)) =
        base_levels.map (fun p => (p.1, p.2.distance)) ∧
      (calculate_levels r).map (fun p => p.2.ratio) =
        base_levels.map (fun p => p.2.ratio * (r / 170)) := by
  have hsum : base_total_ratio = 170 := by
    norm_num [base_total_ratio, base_levels]
  refine ⟨hsum, by norm_num [base_levels], by norm_num [base_levels],
    fun r => ⟨?_, ?_, ?_⟩⟩
  · simp only [calculate_levels, base_levels, hsum, List.map_cons, List.map_nil,
      List.sum_cons, List.sum_nil]
    ring
  · simp [calculate_levels, base_levels]
  · simp [calculate_levels, base_levels, hsum]

/-- C9: the re-entry gate returns true unconditionally on first entry,
false strictly before 60 seconds after the recorded close time, true at or
after 60 seconds, and true when no close time is recorded. -/
theorem C9_reentry_gate :
    (∀ (lc : Option ℚ) (now : ℚ), can_enter_position true lc now = true) ∧
    (∀ t now : ℚ, now < t + 60 → can_enter_position false (some t) now = false) ∧
    (∀ t now : ℚ, t + 60 ≤ now → can_enter_position false (some t) now = true) ∧
    (∀ now : ℚ, can_enter_position false none now = true) := by
  refine ⟨fun lc now => rfl, fun t now h => ?_, fun t now h => ?_, fun now => rfl⟩
  · show decide (now - t ≥ 60) = false
    simp only [decide_eq_false_iff_not, ge_iff_le, not_le]
    linarith
  · show decide (now - t ≥ 60) = true
    simp only [decide_eq_true_eq, ge_iff_le]
    linarith

/-- C9 witness: with a close recorded at time 0, entry is blocked at 30s and
allowed at 60s; first entry and no recorded close are always allowed. -/
theorem C9_reentry_gate_witness :
    can_enter_position true none 0 = true ∧
    can_enter_position false (some 0) 30 = false ∧
    can_enter_position false (some 0) 60 = true ∧
    can_enter_position false none 5 = true :=
  ⟨C9_reentry_gate.1 none 0, C9_reentry_gate.2.1 0 30 (by norm_num),
   C9_reentry_gate.2.2.1 0 60 (by norm_num), C9_reentry_gate.2.2.2 5⟩

/-- C10: the closure handler is idempotent — running it a second time (at
any later wall-clock time) produces the same terminal state as a single run
at that time — and `cancel_all_orders` absorbs every per-order cancellation
failure, so a repeated cancellation never surfaces a fatal error. -/
theorem C10_closure_idempotent :
    (∀ (t1 t2 : ℚ) (s : SymbolState),
      reset_symbol_state_after_close t2 (reset_symbol_state_after_close t1 s) =
        reset_symbol_state_after_close t2 s) ∧
    (∀ (orders : List ℕ) (fails : ℕ → Bool),
      (cancel_all_orders orders fails).fatal = none) :=
  ⟨fun t1 t2 s => rfl, fun orders fails => rfl⟩

lemma foldl_max_replicate (n : ℕ) (b a : ℚ) (h : a ≤ b) :
    List.foldl max b (List.replicate n a) = b := by
  induction n generalizing b with
  | zero => rfl
  | succ k ih =>
    rw [List.replicate_succ, List.foldl_cons, max_eq_left h]
    exact ih b h

lemma foldl_min_replicate (n : ℕ) (b a : ℚ) (h : b ≤ a) :
    List.foldl min b (List.replicate n a) = b := by
  induction n generalizing b with
  | zero => rfl
  | succ k ih =>
    rw [List.replicate_succ, List.foldl_cons, min_eq_left h]
    exact ih b h

/-- C1: on the failing input — entry price 100, take-profit 1%, activation
level reached, eighty 1-hour candles with highest high 100 and lowest low 96
so the volatility-band stop 98 is strictly below the profit target 101 —
the claimed selector returns (98, stop), but the program's `update_tp_order`
issues (101, profit): the code never computes the volatility band. -/
theorem C1_code_eval :
    update_tp_order (some ⟨PosSide.long, 1, 100⟩) 1 = some (101, TpType.profit) ∧
    spec_volatility_stop ((⟨100, 96⟩ : Candle) :: List.replicate 79 ⟨100, 96⟩) 6 6 =
      some 98 ∧
    spec_exit_select (some 98) (update_tp_order_target 100 1).1 = (98, TpType.stop) ∧
    ((98 : ℚ), TpType.stop) ≠ (101, TpType.profit) := by
  refine ⟨?_, ?_, ?_, ?_⟩
  · show some (update_tp_order_target 100 1) = some (101, TpType.profit)
    unfold update_tp_order_target
    norm_num
  · simp only [spec_volatility_stop, List.map_replicate]
    rw [if_pos (by simp)]
    rw [foldl_max_replicate 79 _ _ le_rfl, foldl_min_replicate 79 _ _ le_rfl]
    show some (((100 : ℚ) + 96) / 2) = some 98
    norm_num
  · simp only [spec_exit_select, update_tp_order_target]
    rw [if_pos (show (98 : ℚ) < 100 * (1 + 1/100) by norm_num)]
  · simp only [ne_eq, Prod.mk.injEq, not_and]
    intro h
    norm_num at h

/-- C2 counterexample: with `capital_usage_ratio = 85` the rescaled level-1
table ratio is 5/2, so the claimed pre-rounding position value at balance
1000 with one active symbol is 25 — but the code computes 25/2, because it
multiplies by `85/170` a second time. -/
theorem C2_counterexample :
    (calculate_levels 85).lookup 1 = some ⟨0, 5/2⟩ ∧
    order_position_value ⟨0, 5/2⟩ 1000 1 85 = 25/2 ∧
    spec_position_value ⟨0, 5/2⟩ 1000 1 = 25 ∧
    (25/2 : ℚ) ≠ 25 := by
  refine ⟨?_, ?_, ?_, by norm_num⟩
  · norm_num [calculate_levels, base_levels, base_total_ratio, List.lookup]
  · norm_num [order_position_value]
  · norm_num [spec_position_value]

/-- C2 (amended): for the table entry `cfg` at the requested level, the
pre-rounding position value equals the spec's formula times a second factor
`capital_usage_ratio / 170` (the rescaled table ratio is not the only
scaling applied), raw contracts equal that value over
`price * contractSize`, and the sizing call succeeds. -/
theorem C2_amended (levels : List (ℕ × LevelConfig)) (level : ℕ) (cfg : LevelConfig)
    (price total_balance : ℚ) (m : Market) (count : ℕ) (r : ℚ)
    (h : levels.lookup level = some cfg) :
    order_position_value cfg total_balance count r =
      spec_position_value cfg total_balance count * (r / 170) ∧
    order_raw_contracts cfg price total_balance count r m.contractSize =
      order_position_value cfg total_balance count r / (price * m.contractSize) ∧
    ∃ a, calculate_order_amount levels level price total_balance m count r = some a := by
  refine ⟨by unfold order_position_value spec_position_value; ring, rfl, ?_⟩
  unfold calculate_order_amount
  rw [h]
  exact ⟨_, rfl⟩

/-- C2 witness: the spec's literal scenario — balance 1000, one symbol,
ratio 170, rung-1 table ratio 5 — where the duplicated multiplier is 1. -/
theorem C2_amended_witness :
    (calculate_levels 170).lookup 1 = some ⟨0, 5⟩ ∧
    (order_position_value ⟨0, 5⟩ 1000 1 170 =
       spec_position_value ⟨0, 5⟩ 1000 1 * (170 / 170) ∧
     order_raw_contracts ⟨0, 5⟩ (1/2) 1000 1 170 mkt0.contractSize =
       order_position_value ⟨0, 5⟩ 1000 1 170 / ((1/2) * mkt0.contractSize) ∧
     ∃ a, calculate_order_amount (calculate_levels 170) 1 (1/2) 1000 mkt0 1 170 = some a) :=
  have hl : (calculate_levels 170).lookup 1 = some ⟨0, 5⟩ := by
    norm_num [calculate_levels, base_levels, base_total_ratio, List.lookup]
  ⟨hl, C2_amended (calculate_levels 170) 1 ⟨0, 5⟩ (1/2) 1000 mkt0 1 170 hl⟩

/-- C5 counterexample: `close_position_market` closes an open long (the
resulting position is `none`) yet leaves the recorded protective-order
state (`tp_order_id`, `current_tp_price`, `current_tp_type`) set, violating
the claimed invariant. -/
theorem C5_counterexample :
    (close_position_market 0 (some ⟨PosSide.long, 1, 100⟩)
        ⟨3, none, false, true, true, some 7, some 101, some TpType.profit, [(1, 1/2)]⟩
        true).1 = none ∧
    ¬ protective_state_cleared
      (close_position_market 0 (some ⟨PosSide.long, 1, 100⟩)
        ⟨3, none, false, true, true, some 7, some 101, some TpType.profit, [(1, 1/2)]⟩
        true).2 := by decide

/-- C5 (amended): the poll-cycle closure reset always clears the recorded
protective-order state, but the emergency market close leaves all three
protective-order fields untouched. -/
theorem C5_amended :
    (∀ (now : ℚ) (s : SymbolState),
      protective_state_cleared (reset_symbol_state_after_close now s)) ∧
    (∀ (now : ℚ) (pos : Option Position) (s : SymbolState) (ok : Bool),
      ((close_position_market now pos s ok).2).tp_order_id = s.tp_order_id ∧
      ((close_position_market now pos s ok).2).current_tp_price = s.current_tp_price ∧
      ((close_position_market now pos s ok).2).current_tp_type = s.current_tp_type) := by
  refine ⟨fun now s => ⟨rfl, rfl, rfl⟩, fun now pos s ok => ?_⟩
  rcases pos with _ | p
  · exact ⟨rfl, rfl, rfl⟩
  · by_cases hside : p.side = PosSide.long
    · rcases ok with _ | _ <;> simp [close_position_market, hside]
    · simp [close_position_market, hside]

/-- C3: on any configured exchange other than Binance, `place_market_order`
evaluates the never-assigned `adjusted_amount`, raising a `NameError` that
the catch-all handler turns into `None`: no market order is submitted, no
follow-ups are placed, and the initial long entry never succeeds. -/
theorem C3_non_binance_never_orders (exch : Exch) (hx : exch ≠ Exch.binance) :
    (∀ (side : Side) (amount current_price : ℚ) (precision : ℕ) (lot_size : ℚ)
       (ok : Bool) (fpa : Option ℚ) (bp spa : ℚ),
      place_market_order exch side amount current_price precision lot_size ok fpa bp spa =
        { result := none, submitted := false, raised := some PyErr.nameError,
          followups := [] }) ∧
    (∀ (levels : List (ℕ × LevelConfig)) (cp tb : ℚ) (m : Market) (count : ℕ)
       (r : ℚ) (precision : ℕ) (lot_size : ℚ) (ok : Bool) (fpa : Option ℚ)
       (bp spa : ℚ),
      place_initial_long_order exch levels cp tb m count r precision lot_size ok fpa
        bp spa ≠ some true) := by
  have hpmo : ∀ (side : Side) (amount current_price : ℚ) (precision : ℕ)
      (lot_size : ℚ) (ok : Bool) (fpa : Option ℚ) (bp spa : ℚ),
      place_market_order exch side amount current_price precision lot_size ok fpa bp spa =
        { result := none, submitted := false, raised := some PyErr.nameError,
          followups := [] } := by
    intro side amount current_price precision lot_size ok fpa bp spa
    cases exch with
    | binance => exact absurd rfl hx
    | okx => rfl
    | bybit => rfl
  refine ⟨hpmo, ?_⟩
  intro levels cp tb m count r precision lot_size ok fpa bp spa
  unfold place_initial_long_order
  cases hcoa : calculate_order_amount levels 1 cp tb m count r with
  | none => simp
  | some a =>
    show some ((place_market_order exch Side.buy a cp precision lot_size ok fpa bp
      spa).result.isSome) ≠ some true
    rw [hpmo Side.buy a cp precision lot_size ok fpa bp spa]
    simp

/-- C3 witness: concrete OKX instantiation — the order call fails with the
`NameError`, nothing is submitted, and the initial entry does not succeed. -/
theorem C3_non_binance_never_orders_witness :
    Exch.okx ≠ Exch.binance ∧
    place_market_order Exch.okx Side.buy 1 100 8 (1/100) true (some 1) 100 0 =
      { result := none, submitted := false, raised := some PyErr.nameError,
        followups := [] } ∧
    place_initial_long_order Exch.okx (calculate_levels 170) (1/2) 1000 mkt0 1 170 8
      (1/100) true (some 1) 100 0 ≠ some true :=
  ⟨by decide,
   (C3_non_binance_never_orders Exch.okx (by decide)).1 Side.buy 1 100 8 (1/100) true
     (some 1) 100 0,
   (C3_non_binance_never_orders Exch.okx (by decide)).2 (calculate_levels 170) (1/2)
     1000 mkt0 1 170 8 (1/100) true (some 1) 100 0⟩

/-- C6: on Binance, when the refetched position is nonzero after a
successful market order of (adjusted) amount `a` and side `s`, exactly five
limit orders on the side opposite to `s` are generated at
`base_price * (1 + 0.01*i)` for `i = 1..5`, each for `0.2*a` contracts; and
the successful Binance path of `place_market_order` triggers exactly these
follow-ups for the submitted amount. -/
theorem C6_followup_orders (side : Side) (a q base_price spa : ℚ) (hq : q ≠ 0) :
    generate_followup_orders Exch.binance side a (some q) base_price spa =
      [⟨opposite_side side, base_price * (1 + 1/100 * 1), a * (2/10)⟩,
       ⟨opposite_side side, base_price * (1 + 1/100 * 2), a * (2/10)⟩,
       ⟨opposite_side side, base_price * (1 + 1/100 * 3), a * (2/10)⟩,
       ⟨opposite_side side, base_price * (1 + 1/100 * 4), a * (2/10)⟩,
       ⟨opposite_side side, base_price * (1 + 1/100 * 5), a * (2/10)⟩] ∧
    (∀ (amount cp : ℚ) (precision : ℕ) (lot : ℚ),
      (place_market_order Exch.binance side amount cp precision lot true (some q)
          base_price spa).followups =
        generate_followup_orders Exch.binance side
          ((binance_adjusted_amount amount cp precision lot : ℤ) : ℚ) (some q)
          base_price spa) := by
  constructor
  · rw [show generate_followup_orders Exch.binance side a (some q) base_price spa =
      if q ≠ 0 then followup_orders_list side a base_price else [] from rfl]
    rw [if_pos hq]
    unfold followup_orders_list
    rw [show List.range' 1 5 = [1, 2, 3, 4, 5] from rfl]
    norm_num
  · intro amount cp precision lot
    rfl

/-- C6 counterexample: on Binance a market order can succeed while the
position refetch returns nothing (the source logs this as a follow-up
generation failure) or a zero amount — then no follow-up orders are placed
at all, so they are not placed after every successful market order. -/
theorem C6_counterexample :
    generate_followup_orders Exch.binance Side.buy 10 none 100 0 = [] ∧
    (place_market_order Exch.binance Side.buy 10 100 8 (1/100) true none 100
      0).followups = [] ∧
    generate_followup_orders Exch.binance Side.buy 10 (some 0) 100 0 = [] := by
  refine ⟨rfl, rfl, ?_⟩
  norm_num [generate_followup_orders]

/-- C6 witness: a buy of 10 contracts with position amount 1 and last price
100 yields five sell orders at +1%..+5%, each for 2 contracts. -/
theorem C6_followup_orders_witness :
    (1 : ℚ) ≠ 0 ∧
    generate_followup_orders Exch.binance Side.buy 10 (some 1) 100 0 =
      [⟨opposite_side Side.buy, 100 * (1 + 1/100 * 1), 10 * (2/10)⟩,
       ⟨opposite_side Side.buy, 100 * (1 + 1/100 * 2), 10 * (2/10)⟩,
       ⟨opposite_side Side.buy, 100 * (1 + 1/100 * 3), 10 * (2/10)⟩,
       ⟨opposite_side Side.buy, 100 * (1 + 1/100 * 4), 10 * (2/10)⟩,
       ⟨opposite_side Side.buy, 100 * (1 + 1/100 * 5), 10 * (2/10)⟩] :=
  ⟨by norm_num, (C6_followup_orders Side.buy 10 1 100 0 (by norm_num)).1⟩

lemma first_argmin_isSome (q : ℚ) (l : List (ℕ × ℚ)) (hl : l ≠ []) :
    (first_argmin q l).isSome = true := by
  cases l with
  | nil => exact absurd rfl hl
  | cons p rest =>
    cases hfa : first_argmin q rest with
    | none => simp [first_argmin, hfa]
    | some b =>
      simp only [first_argmin, hfa]
      split <;> simp

lemma first_argmin_none_iff (q : ℚ) (l : List (ℕ × ℚ)) :
    first_argmin q l = none ↔ l = [] := by
  constructor
  · intro h
    by_contra hne
    have := first_argmin_isSome q l hne
    rw [h] at this
    simp at this
  · intro h; subst h; rfl

lemma first_argmin_spec (q : ℚ) :
    ∀ (l : List (ℕ × ℚ)), List.Pairwise (fun a b => a.1 < b.1) l →
      ∀ x, first_argmin q l = some x →
        x ∈ l ∧ (∀ y ∈ l, |q - x.2| ≤ |q - y.2|) ∧
        (∀ y ∈ l, |q - y.2| = |q - x.2| → x.1 ≤ y.1) := by
  intro l
  induction l with
  | nil => intro _ x hx; exact absurd hx (by simp [first_argmin])
  | cons p rest ih =>
    intro hpw x hx
    have hpw_rest : List.Pairwise (fun a b => a.1 < b.1) rest :=
      (List.pairwise_cons.mp hpw).2
    have hp_lt : ∀ y ∈ rest, p.1 < y.1 := (List.pairwise_cons.mp hpw).1
    cases hfa : first_argmin q rest with
    | none =>
      have hrest : rest = [] := (first_argmin_none_iff q rest).mp hfa
      subst hrest
      have hxp : x = p := by
        have : some p = some x := by rw [← hx]; rfl
        exact (Option.some.inj this).symm
      subst hxp
      refine ⟨List.mem_singleton.mpr rfl, ?_, ?_⟩
      · intro y hy
        rw [List.mem_singleton.mp hy]
      · intro y hy _
        rw [List.mem_singleton.mp hy]
    | some b =>
      obtain ⟨hb_mem, hb_min, hb_tie⟩ := ih hpw_rest b hfa
      rw [show first_argmin q (p :: rest) =
        (if |q - b.2| < |q - p.2| then some b else some p) by
          simp only [first_argmin, hfa]] at hx
      by_cases hlt : |q - b.2| < |q - p.2|
      · rw [if_pos hlt] at hx
        have hbx : b = x := Option.some.inj hx
        subst hbx
        refine ⟨List.mem_cons_of_mem _ hb_mem, ?_, ?_⟩
        · intro y hy
          rcases List.mem_cons.mp hy with h1 | h2
          · rw [h1]; exact le_of_lt hlt
          · exact hb_min y h2
        · intro y hy heq
          rcases List.mem_cons.mp hy with h1 | h2
          · rw [h1] at heq
            rw [heq] at hlt
            exact absurd hlt (lt_irrefl _)
          · exact hb_tie y h2 heq
      · rw [if_neg hlt] at hx
        have hpx : p = x := Option.some.inj hx
        subst hpx
        have hple : |q - p.2| ≤ |q - b.2| := le_of_not_lt hlt
        refine ⟨List.mem_cons_self _ _, ?_, ?_⟩
        · intro y hy
          rcases List.mem_cons.mp hy with h1 | h2
          · rw [h1]
          · exact le_trans hple (hb_min y h2)
        · intro y hy _
          rcases List.mem_cons.mp hy with h1 | h2
          · rw [h1]
          · exact le_of_lt (hp_lt y h2)

lemma gclp_aux_eq_first_argmin (q : ℚ) :
    ∀ (l : List (ℕ × ℚ)) (md : Option ℚ) (c : ℕ),
      gclp_aux q l md c =
        (first_argmin q l).elim c
          (fun x => if lt_min_diff |q - x.2| md then x.1 else c) := by
  intro l
  induction l with
  | nil => intro md c; rfl
  | cons p rest ih =>
    intro md c
    rw [show gclp_aux q (p :: rest) md c =
      (if lt_min_diff |q - p.2| md then gclp_aux q rest (some |q - p.2|) p.1
       else gclp_aux q rest md c) from rfl]
    cases hfa : first_argmin q rest with
    | none =>
      rw [show first_argmin q (p :: rest) = some p by simp only [first_argmin, hfa]]
      rw [ih (some |q - p.2|) p.1, ih md c, hfa]
      simp only [Option.elim_none, Option.elim_some]
    | some b =>
      rw [show first_argmin q (p :: rest) =
        (if |q - b.2| < |q - p.2| then some b else some p) by
          simp only [first_argmin, hfa]]
      rw [ih (some |q - p.2|) p.1, ih md c, hfa]
      simp only [Option.elim_some]
      by_cases h1 : |q - b.2| < |q - p.2|
      · rw [if_pos h1]
        cases md with
        | none => simp [lt_min_diff, h1]
        | some v =>
          by_cases h2 : |q - p.2| < v
          · simp [lt_min_diff, h1, h2, lt_trans h1 h2]
          · simp [lt_min_diff, h2]
      · rw [if_neg h1]
        cases md with
        | none => simp [lt_min_diff, h1]
        | some v =>
          by_cases h2 : |q - p.2| < v
          · simp [lt_min_diff, h1, h2]
          · have hbv : ¬ |q - b.2| < v := fun hc =>
              h2 (lt_of_le_of_lt (le_of_not_lt h1) hc)
            simp [lt_min_diff, h2, hbv]

/-- C8: level inference returns rung 1 on an empty cumulative table;
otherwise, for a table keyed in strictly ascending rung order (as the
program builds it), it returns a rung whose cumulative amount has minimal
absolute difference from the observed position quantity, and among tied
rungs the lowest rung number. -/
theorem C8_level_inference (table : List (ℕ × ℚ)) (q : ℚ)
    (hsorted : List.Pairwise (fun a b => a.1 < b.1) table) :
    (table = [] → get_current_level_from_position table q = 1) ∧
    (table ≠ [] → ∃ x ∈ table,
      get_current_level_from_position table q = x.1 ∧
      (∀ y ∈ table, |q - x.2| ≤ |q - y.2|) ∧
      (∀ y ∈ table, |q - y.2| = |q - x.2| → x.1 ≤ y.1)) := by
  constructor
  · intro h; subst h; rfl
  · intro hne
    obtain ⟨x, hx⟩ := Option.isSome_iff_exists.mp (first_argmin_isSome q table hne)
    obtain ⟨hmem, hmin, htie⟩ := first_argmin_spec q table hsorted x hx
    refine ⟨x, hmem, ?_, hmin, htie⟩
    have hempty : table.isEmpty = false := by
      cases table with
      | nil => exact absurd rfl hne
      | cons a t => rfl
    rw [show get_current_level_from_position table q =
      (if table.isEmpty then 1 else gclp_aux q table none 1) from rfl]
    rw [hempty]
    rw [show (if (false : Bool) then 1 else gclp_aux q table none 1) =
      gclp_aux q table none 1 from rfl]
    rw [gclp_aux_eq_first_argmin q table none 1, hx]
    rfl

/-- C8 witness: table {1 ↦ 1/2, 2 ↦ 3/2} and observed quantity 1 — both
rungs are at distance 1/2, and the inference picks the lower rung 1. -/
theorem C8_level_inference_witness :
    List.Pairwise (fun a b : ℕ × ℚ => a.1 < b.1) [(1, 1/2), (2, 3/2)] ∧
    ([((1 : ℕ), (1 : ℚ)/2), (2, 3/2)] ≠ []) ∧
    (∃ x ∈ [((1 : ℕ), (1 : ℚ)/2), (2, 3/2)],
      get_current_level_from_position [((1 : ℕ), (1 : ℚ)/2), (2, 3/2)] 1 = x.1 ∧
      (∀ y ∈ [((1 : ℕ), (1 : ℚ)/2), (2, 3/2)], |1 - x.2| ≤ |1 - y.2|) ∧
      (∀ y ∈ [((1 : ℕ), (1 : ℚ)/2), (2, 3/2)], |1 - y.2| = |1 - x.2| → x.1 ≤ y.1)) :=
  ⟨by simp, by simp,
   (C8_level_inference [(1, 1/2), (2, 3/2)] 1 (by simp)).2 (by simp)⟩

lemma order_amount_clamp_pos (m : Market) :
    0 < (match m.minAmount with
      | some market_min => max (1/1000 : ℚ) market_min
      | none => (1/1000 : ℚ)) := by
  cases m.minAmount with
  | none => norm_num
  | some mm => exact lt_of_lt_of_le (by norm_num) (le_max_left _ _)

lemma calculate_order_amount_pos {levels : List (ℕ × LevelConfig)} {level : ℕ}
    {price total_balance : ℚ} {m : Market} {count : ℕ} {r a : ℚ}
    (h : calculate_order_amount levels level price total_balance m count r = some a) :
    0 < a := by
  unfold calculate_order_amount at h
  cases hl : levels.lookup level with
  | none => rw [hl] at h; cases h
  | some cfg =>
    rw [hl] at h
    have hval := Option.some.inj h
    rw [← hval]
    split
    · exact order_amount_clamp_pos m
    · next hcond => exact lt_of_lt_of_le (order_amount_clamp_pos m) (le_of_not_lt hcond)

lemma calc_cum_aux_ge {levels : List (ℕ × LevelConfig)} {e B : ℚ} {m : Market}
    {count : ℕ} {r : ℚ} :
    ∀ (ls : List ℕ) (acc : ℚ) (p : ℕ × ℚ),
      p ∈ calc_cum_aux levels e B m count r ls acc → acc ≤ p.2 := by
  intro ls
  induction ls with
  | nil => intro acc p hp; exact absurd hp (by simp [calc_cum_aux])
  | cons lv rest ih =>
    intro acc p hp
    cases hcoa : calculate_order_amount levels lv e B m count r with
    | none =>
      rw [show calc_cum_aux levels e B m count r (lv :: rest) acc =
        calc_cum_aux levels e B m count r rest acc by
          simp only [calc_cum_aux, hcoa]] at hp
      exact ih acc p hp
    | some amount =>
      rw [show calc_cum_aux levels e B m count r (lv :: rest) acc =
        (lv, acc + amount) :: calc_cum_aux levels e B m count r rest (acc + amount) by
          simp only [calc_cum_aux, hcoa]] at hp
      have hpos : 0 < amount := calculate_order_amount_pos hcoa
      rcases List.mem_cons.mp hp with h1 | h2
      · rw [h1]
        exact le_add_of_nonneg_right (le_of_lt hpos)
      · exact le_trans (le_add_of_nonneg_right (le_of_lt hpos)) (ih (acc + amount) p h2)

lemma calc_cum_aux_chain {levels : List (ℕ × LevelConfig)} {e B : ℚ} {m : Market}
    {count : ℕ} {r : ℚ} :
    ∀ (ls : List ℕ) (acc : ℚ),
      List.Chain' (fun a b : ℕ × ℚ => a.2 ≤ b.2)
        (calc_cum_aux levels e B m count r ls acc) := by
  intro ls
  induction ls with
  | nil => intro acc; simp [calc_cum_aux]
  | cons lv rest ih =>
    intro acc
    cases hcoa : calculate_order_amount levels lv e B m count r with
    | none =>
      rw [show calc_cum_aux levels e B m count r (lv :: rest) acc =
        calc_cum_aux levels e B m count r rest acc by
          simp only [calc_cum_aux, hcoa]]
      exact ih acc
    | some amount =>
      rw [show calc_cum_aux levels e B m count r (lv :: rest) acc =
        (lv, acc + amount) :: calc_cum_aux levels e B m count r rest (acc + amount) by
          simp only [calc_cum_aux, hcoa]]
      refine List.chain'_cons'.mpr ⟨?_, ih (acc + amount)⟩
      intro b hb
      exact calc_cum_aux_ge rest (acc + amount) b (List.mem_of_mem_head? hb)

lemma calc_cum_aux_eq_running_sums {levels : List (ℕ × LevelConfig)} {e B : ℚ}
    {m : Market} {count : ℕ} {r : ℚ} :
    ∀ (ls : List ℕ) (acc : ℚ),
      (∀ lv ∈ ls, (calculate_order_amount levels lv e B m count r).isSome = true) →
      calc_cum_aux levels e B m count r ls acc =
        running_sums (fun i => (calculate_order_amount levels i e B m count r).getD 0)
          ls acc := by
  intro ls
  induction ls with
  | nil => intro acc _; rfl
  | cons lv rest ih =>
    intro acc hall
    cases hcoa : calculate_order_amount levels lv e B m count r with
    | none =>
      have := hall lv (List.mem_cons_self _ _)
      rw [hcoa] at this
      exact absurd this (by simp)
    | some amount =>
      rw [show calc_cum_aux levels e B m count r (lv :: rest) acc =
        (lv, acc + amount) :: calc_cum_aux levels e B m count r rest (acc + amount) by
          simp only [calc_cum_aux, hcoa]]
      rw [show running_sums (fun i => (calculate_order_amount levels i e B m count r).getD 0)
          (lv :: rest) acc =
        (lv, acc + amount) ::
          running_sums (fun i => (calculate_order_amount levels i e B m count r).getD 0)
            rest (acc + amount) by
          simp only [running_sums, hcoa, Option.getD_some]]
      rw [ih (acc + amount) (fun x hx => hall x (List.mem_cons_of_mem _ hx))]

/-- C4 (amended): the cumulative table is always non-decreasing in rung
index, and for the program's own level table it is exactly the running sums
of the order sizes all computed at the entry price itself (not at the
successive ladder prices). -/
theorem C4_amended :
    (∀ (levels : List (ℕ × LevelConfig)) (e B : ℚ) (m : Market) (count : ℕ) (r : ℚ),
      List.Chain' (fun a b : ℕ × ℚ => a.2 ≤ b.2)
        (calculate_cumulative_amounts levels e B m count r)) ∧
    (∀ (e B : ℚ) (m : Market) (count : ℕ) (r : ℚ),
      calculate_cumulative_amounts (calculate_levels r) e B m count r =
        running_sums
          (fun i => (calculate_order_amount (calculate_levels r) i e B m count r).getD 0)
          (List.range' 1 10) 0) := by
  constructor
  · intro levels e B m count r
    exact calc_cum_aux_chain _ _
  · intro e B m count r
    apply calc_cum_aux_eq_running_sums
    intro lv hlv
    rw [show List.range' 1 10 = [1, 2, 3, 4, 5, 6, 7, 8, 9, 10] from rfl] at hlv
    fin_cases hlv <;> rfl

/-- C4 counterexample: entry price 100, balance 1000, one symbol,
`capital_usage_ratio = 170`, market `mkt0` — the code's cumulative amount at
rung 2 is 1 (both rungs sized at the entry price 100), while the claimed
table built at the successive ladder prices (rung 2 at 98.5) gives
1.00761421. -/
theorem C4_counterexample :
    (calculate_cumulative_amounts (calculate_levels 170) 100 1000 mkt0 1 170).lookup 2 =
      some 1 ∧
    (spec_cumulative_amounts (calculate_levels 170) 100 1000 mkt0 1 170).lookup 2 =
      some (100761421/100000000) ∧
    (1 : ℚ) ≠ 100761421/100000000 := by
  have ha1 : calculate_order_amount (calculate_levels 170) 1 100 1000 mkt0 1 170 =
      some (1/2) := by
    norm_num [calculate_order_amount, calculate_levels, base_levels, base_total_ratio,
      List.lookup, order_raw_contracts, order_position_value, py_round, py_round_int, mkt0]
  have ha2 : calculate_order_amount (calculate_levels 170) 2 100 1000 mkt0 1 170 =
      some (1/2) := by
    norm_num [calculate_order_amount, calculate_levels, base_levels, base_total_ratio,
      List.lookup, order_raw_contracts, order_position_value, py_round, py_round_int, mkt0,
      (show (2 == 1) = false from rfl), (show (2 == 2) = true from rfl)]
  have ha1s : calculate_order_amount (calculate_levels 170) 1 (100 * (1 - 0 / 100)) 1000
      mkt0 1 170 = some (1/2) := by
    norm_num [calculate_order_amount, calculate_levels, base_levels, base_total_ratio,
      List.lookup, order_raw_contracts, order_position_value, py_round, py_round_int, mkt0]
  have ha2s : calculate_order_amount (calculate_levels 170) 2 (100 * (1 - 3 / 2 / 100)) 1000
      mkt0 1 170 = some (50761421/100000000) := by
    norm_num [calculate_order_amount, calculate_levels, base_levels, base_total_ratio,
      List.lookup, order_raw_contracts, order_position_value, py_round, py_round_int, mkt0,
      (show (2 == 1) = false from rfl), (show (2 == 2) = true from rfl)]
  have hl1 : List.lookup 1 (calculate_levels 170) =
      some ⟨0, 5 * ((170 : ℚ) / base_total_ratio)⟩ := rfl
  have hl2 : List.lookup 2 (calculate_levels 170) =
      some ⟨3/2, 5 * ((170 : ℚ) / base_total_ratio)⟩ := rfl
  refine ⟨?_, ?_, by norm_num⟩
  · rw [calculate_cumulative_amounts,
      show List.range' 1 10 = 1 :: 2 :: List.range' 3 8 from rfl]
    simp only [calc_cum_aux, ha1, ha2]
    simp only [List.lookup, (show ((2 : ℕ) == 1) = false from rfl),
      (show ((2 : ℕ) == 2) = true from rfl)]
    norm_num
  · rw [spec_cumulative_amounts,
      show List.range' 1 10 = 1 :: 2 :: List.range' 3 8 from rfl]
    simp only [spec_cum_aux, hl1, hl2, ha1s, ha2s, Option.getD_some]
    simp only [List.lookup, (show ((2 : ℕ) == 1) = false from rfl),
      (show ((2 : ℕ) == 2) = true from rfl)]
    norm_num
